import Mathlib

set_option maxRecDepth 20000

/-!
Shallow embedding of the quiz-generation API route of this repository.

The route (function `POST`) validates its configuration and request body and
forwards a prompt to an upstream workflow engine; the reply text is parsed by
`parseDifyCSV` into question records.  The parser pipeline is:

* a normalizer that deletes code-fence markers (a global replace of the
  pattern "three backticks, then ASCII letters, then an optional newline",
  case-insensitively, followed by a global replace of bare triple backticks)
  and trims surrounding whitespace;
* a row splitter on the literal token `<_>` (with a newline-based fallback);
* per row, strategy A (split on the literal token `|->`) and, failing that,
  strategy B (labeled key-value extraction with three patterns);
* an option decoder: JSON decoding after replacing single quotes by double
  quotes, falling back to bracket/quote stripping and comma splitting.

JavaScript strings are modelled as Lean `String` / `List Char`; the JS
methods used by the source (`split`, `includes`, `trim`, the char-class
regex replaces, `JSON.parse`) are embedded as the executable functions
below.  `JSON.parse` is embedded as a total recursive-descent parser over
the JSON grammar (whitespace, null, booleans, numbers kept as lexemes,
strings with the standard escapes, arrays, objects); surrogate-pair escape
sequences, which cannot arise in the claims considered here, are mapped
through `Char.ofNat`.  Record identifiers (`crypto.randomUUID()`) are
modelled by an injected generator stream `Nat → String`: the k-th record
pushed receives the k-th generated identifier.
-/

/-- Whitespace recognised by the embedding of JS `String.prototype.trim`
(the ASCII part of the JS WhiteSpace/LineTerminator classes). -/
def isTrimWs (c : Char) : Bool :=
  c = ' ' || c = '\t' || c = '\n' || c = '\r' || c = Char.ofNat 11 || c = Char.ofNat 12

/-- Embedding of JS `trim` on char lists. -/
def trimL (cs : List Char) : List Char :=
  ((cs.dropWhile isTrimWs).reverse.dropWhile isTrimWs).reverse

/-- Embedding of JS `String.prototype.trim`. -/
def trimStr (s : String) : String := String.mk (trimL s.toList)

/-- `isPrefixL pat cs` holds when `pat` starts `cs` (exact characters). -/
def isPrefixL : List Char → List Char → Bool
  | [], _ => true
  | _ :: _, [] => false
  | p :: ps, c :: cs => p = c && isPrefixL ps cs

/-- Embedding of JS `String.prototype.includes` on char lists. -/
def containsSubL (pat : List Char) : List Char → Bool
  | [] => isPrefixL pat []
  | c :: rest => isPrefixL pat (c :: rest) || containsSubL pat rest

/-- Embedding of JS `s.includes(pat)`. -/
def containsSub (s pat : String) : Bool := containsSubL pat.toList s.toList

/-- Embedding of JS `String.prototype.split` with a non-empty string
separator, fuelled by the input length (each step consumes at least one
character, so `fuel = cs.length` always suffices). -/
def splitOnF (sep : List Char) : Nat → List Char → List (List Char)
  | _, [] => [[]]
  | 0, cs => [cs]
  | fuel+1, c :: rest =>
    if !sep.isEmpty && isPrefixL sep (c :: rest) then
      [] :: splitOnF sep fuel (List.drop (sep.length - 1) rest)
    else
      match splitOnF sep fuel rest with
      | [] => [[c]]
      | r :: rs => (c :: r) :: rs

/-- Embedding of JS `s.split(sep)` for a non-empty literal separator. -/
def splitOnStr (s sep : String) : List String :=
  (splitOnF sep.toList s.toList.length s.toList).map String.mk

/-- The double-quote character. -/
def dquoteC : Char := Char.ofNat 34

/-- The single-quote character. -/
def squoteC : Char := Char.ofNat 39

/-- The backtick character. -/
def backtickC : Char := Char.ofNat 96

/-- JSON values as produced by the embedding of `JSON.parse`.  Numbers keep
their source lexeme: the code never computes with them, it only stores them
or tests them for truthiness. -/
inductive JsValue where
  | null
  | bool (b : Bool)
  | num (lexeme : String)
  | str (s : String)
  | arr (elems : List JsValue)
  | obj (fields : List (String × JsValue))

/-- JSON insignificant whitespace. -/
def isJsonWs (c : Char) : Bool := c = ' ' || c = '\t' || c = '\n' || c = '\r'

/-- Drop leading JSON whitespace. -/
def skipWs (cs : List Char) : List Char := cs.dropWhile isJsonWs

/-- ASCII digit test. -/
def isDigitC (c : Char) : Bool := '0' ≤ c && c ≤ '9'

/-- ASCII hexadecimal digit test. -/
def isHexC (c : Char) : Bool :=
  isDigitC c || ('a' ≤ c && c ≤ 'f') || ('A' ≤ c && c ≤ 'F')

/-- Value of a hexadecimal digit. -/
def hexVal (c : Char) : Nat :=
  if isDigitC c then c.toNat - '0'.toNat
  else if 'a' ≤ c && c ≤ 'f' then c.toNat - 'a'.toNat + 10
  else c.toNat - 'A'.toNat + 10

/-- Body of a JSON string literal, after the opening double quote: returns
the decoded characters and the input remaining after the closing quote. -/
def parseStringBody : List Char → Option (List Char × List Char)
  | [] => none
  | c :: rest =>
    if c = dquoteC then some ([], rest)
    else if c = '\\' then
      match rest with
      | [] => none
      | e :: rest2 =>
        if e = dquoteC then (parseStringBody rest2).map (fun p => (dquoteC :: p.1, p.2))
        else if e = '\\' then (parseStringBody rest2).map (fun p => ('\\' :: p.1, p.2))
        else if e = '/' then (parseStringBody rest2).map (fun p => ('/' :: p.1, p.2))
        else if e = 'b' then (parseStringBody rest2).map (fun p => (Char.ofNat 8 :: p.1, p.2))
        else if e = 'f' then (parseStringBody rest2).map (fun p => (Char.ofNat 12 :: p.1, p.2))
        else if e = 'n' then (parseStringBody rest2).map (fun p => ('\n' :: p.1, p.2))
        else if e = 'r' then (parseStringBody rest2).map (fun p => ('\r' :: p.1, p.2))
        else if e = 't' then (parseStringBody rest2).map (fun p => ('\t' :: p.1, p.2))
        else if e = 'u' then
          match rest2 with
          | h1 :: h2 :: h3 :: h4 :: rest3 =>
            if isHexC h1 && isHexC h2 && isHexC h3 && isHexC h4 then
              (parseStringBody rest3).map (fun p =>
                (Char.ofNat (((hexVal h1 * 16 + hexVal h2) * 16 + hexVal h3) * 16 + hexVal h4)
                  :: p.1, p.2))
            else none
          | _ => none
        else none
    else if c.toNat < 32 then none
    else (parseStringBody rest).map (fun p => (c :: p.1, p.2))

/-- Lexeme of a JSON number (`-? (0 | [1-9][0-9]*) frac? exp?`); a malformed
fraction or exponent is left unconsumed so that the surrounding grammar
rejects it, exactly as `JSON.parse` does. -/
def parseNumLexeme (cs : List Char) : Option (List Char × List Char) :=
  let signed := match cs with
    | c :: t => if c = '-' then (['-'], t) else (([] : List Char), cs)
    | [] => (([] : List Char), cs)
  match signed.2 with
  | [] => none
  | d :: _ =>
    if !isDigitC d then none
    else
      let ipart := if d = '0' then (['0'], signed.2.drop 1)
        else (signed.2.takeWhile isDigitC, signed.2.dropWhile isDigitC)
      let fpart := match ipart.2 with
        | c :: t =>
          if c = '.' then
            let fd := t.takeWhile isDigitC
            if fd.isEmpty then (([] : List Char), ipart.2)
            else ('.' :: fd, t.dropWhile isDigitC)
          else (([] : List Char), ipart.2)
        | [] => (([] : List Char), ipart.2)
      let epart := match fpart.2 with
        | c :: t =>
          if c = 'e' || c = 'E' then
            let es := match t with
              | s :: t2 => if s = '+' || s = '-' then ([s], t2) else (([] : List Char), t)
              | [] => (([] : List Char), t)
            let ed := es.2.takeWhile isDigitC
            if ed.isEmpty then (([] : List Char), fpart.2)
            else (c :: (es.1 ++ ed), es.2.dropWhile isDigitC)
          else (([] : List Char), fpart.2)
        | [] => (([] : List Char), fpart.2)
      some (signed.1 ++ ipart.1 ++ fpart.1 ++ epart.1, epart.2)

mutual

/-- Recursive-descent JSON value parser (fuelled; the top-level call supplies
fuel `2 * length + 2`, which bounds the call depth since every two nested
calls consume at least one input character). -/
def parseValue : Nat → List Char → Option (JsValue × List Char)
  | 0, _ => none
  | fuel+1, cs =>
    match skipWs cs with
    | [] => none
    | c :: rest =>
      if c = dquoteC then
        (parseStringBody rest).map (fun p => (JsValue.str (String.mk p.1), p.2))
      else if c = '[' then
        match skipWs rest with
        | ']' :: rest2 => some (JsValue.arr [], rest2)
        | rest2 => (parseElems fuel rest2).map (fun p => (JsValue.arr p.1, p.2))
      else if c = '{' then
        match skipWs rest with
        | '}' :: rest2 => some (JsValue.obj [], rest2)
        | rest2 => (parseFields fuel rest2).map (fun p => (JsValue.obj p.1, p.2))
      else if isPrefixL ['n', 'u', 'l', 'l'] (c :: rest) then
        some (JsValue.null, (c :: rest).drop 4)
      else if isPrefixL ['t', 'r', 'u', 'e'] (c :: rest) then
        some (JsValue.bool true, (c :: rest).drop 4)
      else if isPrefixL ['f', 'a', 'l', 's', 'e'] (c :: rest) then
        some (JsValue.bool false, (c :: rest).drop 5)
      else if c = '-' || isDigitC c then
        (parseNumLexeme (c :: rest)).map (fun p => (JsValue.num (String.mk p.1), p.2))
      else none

/-- Elements of a non-empty JSON array, starting at the first element. -/
def parseElems : Nat → List Char → Option (List JsValue × List Char)
  | 0, _ => none
  | fuel+1, cs =>
    match parseValue fuel cs with
    | none => none
    | some (v, rest) =>
      match skipWs rest with
      | ',' :: rest2 =>
        match parseElems fuel rest2 with
        | none => none
        | some (vs, rest3) => some (v :: vs, rest3)
      | ']' :: rest2 => some ([v], rest2)
      | _ => none

/-- Members of a non-empty JSON object, starting at the first key. -/
def parseFields : Nat → List Char → Option (List (String × JsValue) × List Char)
  | 0, _ => none
  | fuel+1, cs =>
    match skipWs cs with
    | [] => none
    | c :: rest =>
      if c = dquoteC then
        match parseStringBody rest with
        | none => none
        | some (key, rest1) =>
          match skipWs rest1 with
          | ':' :: rest2 =>
            match parseValue fuel rest2 with
            | none => none
            | some (v, rest3) =>
              match skipWs rest3 with
              | ',' :: rest4 =>
                match parseFields fuel rest4 with
                | none => none
                | some (fs, rest5) => some ((String.mk key, v) :: fs, rest5)
              | '}' :: rest4 => some ([(String.mk key, v)], rest4)
              | _ => none
          | _ => none
      else none

end

/-- Embedding of `JSON.parse`: a complete parse of one JSON text, with
failure (`none`) standing for the thrown `SyntaxError`. -/
def jsonParse (s : String) : Option JsValue :=
  match parseValue (2 * s.toList.length + 2) s.toList with
  | some (v, rest) => if (skipWs rest).isEmpty then some v else none
  | none => none

/-- Embedding of `optionsStr.replace(/'/g, see the source)`: every single
quote becomes a double quote. -/
def sanitize (s : String) : String :=
  String.mk (s.toList.map (fun c => if c = squoteC then dquoteC else c))

/-- Embedding of the char-class replace that deletes every `[`, `]` and
single-quote character. -/
def stripBracketsQuotes (s : String) : String :=
  String.mk (s.toList.filter (fun c => !(c = '[' || c = ']' || c = squoteC)))

/-- The fallback option decode: strip brackets/single quotes, split on
commas, trim each piece, keep the non-empty pieces in order. -/
def fallbackSplit (s : String) : List String :=
  ((splitOnStr (stripBracketsQuotes s) ",").map trimStr).filter (fun o => 0 < o.length)

/-- The option decoder of the source: `JSON.parse` on the sanitized text,
with the bracket-stripping comma split as the `catch` fallback. -/
def decodeOptions (optionsStr : String) : JsValue :=
  match jsonParse (sanitize optionsStr) with
  | some v => v
  | none => JsValue.arr ((fallbackSplit optionsStr).map JsValue.str)

/-- A JSON number lexeme denotes zero exactly when every mantissa digit is
zero (the exponent never changes zeroness). -/
def numLexIsZero (lex : String) : Bool :=
  (lex.toList.takeWhile (fun c => !(c = 'e' || c = 'E'))).all
    (fun c => c = '0' || c = '-' || c = '.')

/-- JS truthiness of a JSON value: `null`, `false`, zero and the empty
string are falsy, everything else (including the empty array) is truthy. -/
def truthy : JsValue → Bool
  | JsValue.null => false
  | JsValue.bool b => b
  | JsValue.num lex => !numLexIsZero lex
  | JsValue.str s => !s.toList.isEmpty
  | JsValue.arr _ => true
  | JsValue.obj _ => true

/-- Case-insensitive prefix test (embedding of the `i` regex flag for the
ASCII labels used by the source patterns). -/
def ciStarts : List Char → List Char → Bool
  | [], _ => true
  | _ :: _, [] => false
  | p :: ps, c :: cs => p.toLower = c.toLower && ciStarts ps cs

/-- Try each label alternative at the current position: a label matches when
it is a case-insensitive prefix and is immediately followed by a colon (the
colon sits outside the alternation group in the source regex). -/
def dropLabelAt (labels : List (List Char)) (cs : List Char) : Option (List Char) :=
  match labels with
  | [] => none
  | l :: ls =>
    if ciStarts (l ++ [':']) cs then some (cs.drop (l.length + 1)) else dropLabelAt ls cs

/-- Leftmost position where some label-plus-colon matches; returns the
input remaining after the colon. -/
def scanLabel (labels : List (List Char)) : List Char → Option (List Char)
  | [] => none
  | c :: rest =>
    match dropLabelAt labels (c :: rest) with
    | some after => some after
    | none => scanLabel labels rest

/-- Lazy capture `[the dot-all class]*?` up to the lookahead: the shortest
span ending where some terminator is a case-insensitive prefix, or the whole
remainder when no terminator ever matches (the `$` alternative). -/
def captureUntil (terms : List (List Char)) : List Char → List Char
  | [] => []
  | c :: rest =>
    if terms.any (fun t => ciStarts t (c :: rest)) then []
    else c :: captureUntil terms rest

/-- Embedding of `row.match` for the three source patterns, which all have
the shape "label alternatives, colon, greedy whitespace, lazy dot-all
capture, lookahead terminators or end": returns capture group 1. -/
def matchKV (labels terms : List String) (s : String) : Option String :=
  match scanLabel (labels.map String.toList) s.toList with
  | none => none
  | some after =>
    some (String.mk (captureUntil (terms.map String.toList) (after.dropWhile isTrimWs)))

/-- The description pattern of strategy B. -/
def descMatch (row : String) : Option String :=
  matchKV ["Description", "1.", "2.", "3.", "4.", "5."] ["Options:", "Answer:"] row

/-- The options pattern of strategy B. -/
def optMatch (row : String) : Option String :=
  matchKV ["Options"] ["Answer:"] row

/-- The answer pattern of strategy B. -/
def ansMatch (row : String) : Option String :=
  matchKV ["Answer"] ["Skill:", "Type:"] row

/-- A question record.  `options` is `JsValue.null` for the JS `null`;
`skill` and `type` are the string enums of the store. -/
structure Question where
  id : String
  description : String
  options : JsValue
  answer : String
  skill : String
  type : String

/-- Strategy A (pipe-separated fields) for one row, with the identifier left
for the record builder.  Mirrors the source line for line: the row must
contain the field delimiter and split into at least two trimmed parts. -/
def strategyA (ds dt row : String) : Option Question :=
  if containsSub row "|->" then
    let parts := (splitOnStr row "|->").map trimStr
    if 2 ≤ parts.length then
      let description := parts.getD 0 ""
      let optionsStr := if 5 ≤ parts.length then parts.getD 1 "" else ""
      let answer := if 5 ≤ parts.length then parts.getD 2 "" else parts.getD 1 ""
      let skill := if 5 ≤ parts.length then parts.getD 3 "" else ds
      let qtype := if 5 ≤ parts.length then parts.getD 4 "" else dt
      let options := if qtype = "Multiple Choice" then decodeOptions optionsStr else JsValue.null
      some ⟨"", description, options, answer, skill, qtype⟩
    else none
  else none

/-- Strategy B (labeled key-value fallback) for one row.  A record needs
both the description and the answer pattern to match; options are decoded
only when the caller-supplied default type is multiple choice, and the JS
`options or-else default` expression replaces a falsy decode result by the
empty array (multiple choice) or null. -/
def strategyB (ds dt row : String) : Option Question :=
  match descMatch row, ansMatch row with
  | some d, some a =>
    let optionsVar : JsValue :=
      if dt = "Multiple Choice" then
        match optMatch row with
        | some o => decodeOptions (trimStr o)
        | none => JsValue.null
      else JsValue.null
    let options := if truthy optionsVar then optionsVar
      else if dt = "Multiple Choice" then JsValue.arr [] else JsValue.null
    some ⟨"", trimStr d, options, trimStr a, ds, dt⟩
  | _, _ => none

/-- One step of the code-fence replace: on a triple backtick, also consume
the following ASCII letters and one optional newline. -/
def stripFenceF : Nat → List Char → List Char
  | _, [] => []
  | 0, cs => cs
  | fuel+1, c :: rest =>
    if c = backtickC then
      match rest with
      | c2 :: c3 :: rest2 =>
        if c2 = backtickC && c3 = backtickC then
          let r1 := rest2.dropWhile (fun x => ('a' ≤ x && x ≤ 'z') || ('A' ≤ x && x ≤ 'Z'))
          stripFenceF fuel (match r1 with
            | '\n' :: t => t
            | r => r)
        else c :: stripFenceF fuel rest
      | _ => c :: stripFenceF fuel rest
    else c :: stripFenceF fuel rest

/-- The second replace: delete every remaining bare triple backtick. -/
def stripTicksF : Nat → List Char → List Char
  | _, [] => []
  | 0, cs => cs
  | fuel+1, c :: rest =>
    if c = backtickC then
      match rest with
      | c2 :: c3 :: rest2 =>
        if c2 = backtickC && c3 = backtickC then stripTicksF fuel rest2
        else c :: stripTicksF fuel rest
      | _ => c :: stripTicksF fuel rest
    else c :: stripTicksF fuel rest

/-- The normalizer: both code-fence replaces, then trim. -/
def normalizeRaw (raw : String) : String :=
  trimStr (String.mk (stripTicksF
    (stripFenceF raw.toList.length raw.toList).length
    (stripFenceF raw.toList.length raw.toList)))

/-- The row splitter: split on the row delimiter and keep rows that are
non-empty after trimming; when that yields at most one row and the text
still carries the field delimiter and a newline, re-split on newlines and
keep the lines containing the field delimiter. -/
def splitRows (cleanRaw : String) : List String :=
  let rows := (splitOnStr cleanRaw "<_>").filter (fun r => 0 < (trimStr r).length)
  if rows.length ≤ 1 && containsSub cleanRaw "|->" && containsSub cleanRaw "\n" then
    (splitOnStr cleanRaw "\n").filter (fun r => containsSub r "|->")
  else rows

/-- The per-row loop: strategy A, then strategy B, else drop the row; the
n-th pushed record receives the n-th generated identifier. -/
def parseRows (gen : Nat → String) (ds dt : String) : List String → Nat → List Question
  | [], _ => []
  | row :: rest, n =>
    match strategyA ds dt row with
    | some q => { q with id := gen n } :: parseRows gen ds dt rest (n + 1)
    | none =>
      match strategyB ds dt row with
      | some q => { q with id := gen n } :: parseRows gen ds dt rest (n + 1)
      | none => parseRows gen ds dt rest n

/-- The full parser `parseDifyCSV`, with the identifier generator injected. -/
def parseDifyCSV (gen : Nat → String) (raw ds dt : String) : List Question :=
  parseRows gen ds dt (splitRows (normalizeRaw raw)) 0

/-- Identifier erasure, used to compare parser runs modulo generated ids. -/
def eraseId (q : Question) : Question := { q with id := "" }

/-- Spec-side predicate: the value is a (possibly empty) sequence whose
elements are all strings. -/
def isStrArr : JsValue → Bool
  | JsValue.arr xs => xs.all (fun v => match v with
    | JsValue.str _ => true
    | _ => false)
  | _ => false

/-- Upstream configuration of the route (environment variables; `none`
models an absent variable). -/
structure ApiConfig where
  host : Option String
  apiKey : Option String

/-- The request body fields the route destructures (`none` models an absent
field). -/
structure ReqBody where
  range : Option String
  skill : Option String
  type : Option String

/-- Outcome of the handler up to the upstream call: either an early JSON
error payload with its HTTP status, or the outbound upstream request (the
only path on which the upstream is contacted and parsing can happen). -/
inductive PostResult where
  | errorResp (error : String) (status : Nat)
  | upstreamCall (prompt : String)

/-- JS falsiness of an optional string: absent or empty. -/
def jsFalsyStr : Option String → Bool
  | none => true
  | some s => s.toList.isEmpty

/-- The prompt template of the route. -/
def mkPrompt (range skill qt : String) : String :=
  range ++ ", [" ++ String.mk [squoteC] ++ skill ++ String.mk [squoteC] ++ "], ["
    ++ String.mk [squoteC] ++ qt ++ String.mk [squoteC] ++ "]"

/-- The `POST` handler up to the upstream call: configuration check, body
read (`Except.error` models a thrown body-parse error reaching the catch
block), required-field check, then the upstream request. -/
def handlePOST (cfg : ApiConfig) (body : Except String ReqBody) : PostResult :=
  if jsFalsyStr cfg.host || jsFalsyStr cfg.apiKey then
    PostResult.errorResp "Dify configuration is missing" 500
  else
    match body with
    | Except.error msg =>
      PostResult.errorResp (if msg.toList.isEmpty then "Internal Server Error" else msg) 500
    | Except.ok b =>
      if jsFalsyStr b.range || jsFalsyStr b.skill || jsFalsyStr b.type then
        PostResult.errorResp "Missing required fields" 400
      else
        PostResult.upstreamCall (mkPrompt (b.range.getD "") (b.skill.getD "") (b.type.getD ""))

/-- The options text of the first decisive example of the option decoder:
a bracketed, single-quoted list of A, B, C. -/
def optsListLit : String :=
  String.mk ['[', squoteC, 'A', squoteC, ',', ' ', squoteC, 'B', squoteC, ',', ' ',
    squoteC, 'C', squoteC, ']']

/-! ### Helper lemmas about the embedded string operations -/

theorem splitOnF_ne_nil (sep : List Char) : ∀ fuel cs, splitOnF sep fuel cs ≠ [] := by
  intro fuel
  induction fuel with
  | zero => intro cs; cases cs <;> simp [splitOnF]
  | succ n ih =>
    intro cs
    cases cs with
    | nil => simp [splitOnF]
    | cons c rest =>
      simp only [splitOnF]
      split
      · simp
      · cases h : splitOnF sep n rest with
        | nil => exact absurd h (ih rest)
        | cons r rs => simp [h]

theorem containsSubL_iff_two_le_splitOnF (p : Char) (ps : List Char) :
    ∀ fuel cs, cs.length ≤ fuel →
      (containsSubL (p :: ps) cs = true ↔ 2 ≤ (splitOnF (p :: ps) fuel cs).length) := by
  intro fuel
  induction fuel with
  | zero =>
    intro cs hlen
    have hcs : cs = [] := List.length_eq_zero.mp (Nat.le_zero.mp hlen)
    subst hcs
    simp [containsSubL, isPrefixL, splitOnF]
  | succ n ih =>
    intro cs hlen
    cases cs with
    | nil => simp [containsSubL, isPrefixL, splitOnF]
    | cons c rest =>
      simp only [containsSubL, splitOnF]
      by_cases hp : isPrefixL (p :: ps) (c :: rest) = true
      · have hcond : (!(p :: ps).isEmpty && isPrefixL (p :: ps) (c :: rest)) = true := by
          simp [hp]
        rw [if_pos hcond, hp]
        have hne := splitOnF_ne_nil (p :: ps) n (List.drop ((p :: ps).length - 1) rest)
        have hpos : 0 < (splitOnF (p :: ps) n (List.drop ((p :: ps).length - 1) rest)).length :=
          List.length_pos.mpr hne
        simp only [List.length_cons] at hpos
        simp only [Bool.true_or, List.length_cons]
        constructor
        · intro _
          omega
        · intro _
          trivial
      · rw [Bool.not_eq_true] at hp
        have hcond : ¬((!(p :: ps).isEmpty && isPrefixL (p :: ps) (c :: rest)) = true) := by
          simp [hp]
        rw [if_neg hcond, hp]
        simp only [Bool.false_or]
        have hrest : rest.length ≤ n := by
          simp only [List.length_cons] at hlen
          omega
        cases h : splitOnF (p :: ps) n rest with
        | nil => exact absurd h (splitOnF_ne_nil (p :: ps) n rest)
        | cons r rs =>
          have ihr := ih rest hrest
          rw [h, List.length_cons] at ihr
          exact ihr

theorem containsSub_iff_two_le_split (s : String) :
    containsSub s "|->" = true ↔ 2 ≤ (splitOnStr s "|->").length := by
  have h : "|->".toList = ['|', '-', '>'] := rfl
  unfold containsSub splitOnStr
  rw [h, List.length_map]
  exact containsSubL_iff_two_le_splitOnF '|' ['-', '>'] s.toList.length s.toList le_rfl

theorem getD_map_trim : ∀ (l : List String) (i : Nat), i < l.length →
    (l.map trimStr).getD i "" = trimStr (l.getD i "") := by
  intro l
  induction l with
  | nil =>
    intro i h
    simp at h
  | cons a t ih =>
    intro i h
    cases i with
    | zero => rfl
    | succ j =>
      have hj : j < t.length := by
        simp only [List.length_cons] at h
        omega
      exact ih j hj

theorem all_map_str (l : List String) :
    ((l.map JsValue.str).all (fun v => match v with
      | JsValue.str _ => true
      | _ => false)) = true := by
  induction l with
  | nil => rfl
  | cons a t ih =>
    simp only [List.map_cons, List.all_cons, Bool.and_eq_true]
    exact ⟨trivial, ih⟩

theorem decodeOptions_strArr_or_parsed (s : String) :
    isStrArr (decodeOptions s) = true ∨ jsonParse (sanitize s) = some (decodeOptions s) := by
  unfold decodeOptions
  cases h : jsonParse (sanitize s) with
  | some v => exact Or.inr rfl
  | none =>
    left
    unfold isStrArr
    exact all_map_str (fallbackSplit s)

theorem strategyA_type_options (ds dt row : String) (q : Question)
    (h : strategyA ds dt row = some q) :
    (q.type ≠ "Multiple Choice" → q.options = JsValue.null) ∧
    (q.type = "Multiple Choice" →
      isStrArr q.options = true ∨ ∃ s, jsonParse (sanitize s) = some q.options) := by
  unfold strategyA at h
  by_cases h1 : containsSub row "|->" = true
  · rw [if_pos h1] at h
    by_cases h2 : 2 ≤ ((splitOnStr row "|->").map trimStr).length
    · rw [if_pos h2] at h
      have hq := (Option.some.injEq _ _).mp h
      subst hq
      constructor
      · intro ht
        simp only []
        rw [if_neg ht]
      · intro ht
        simp only [] at ht ⊢
        rw [if_pos ht]
        rcases decodeOptions_strArr_or_parsed
            (if 5 ≤ ((splitOnStr row "|->").map trimStr).length
              then ((splitOnStr row "|->").map trimStr).getD 1 "" else "") with hs | hs
        · exact Or.inl hs
        · exact Or.inr ⟨_, hs⟩
    · rw [if_neg h2] at h
      exact absurd h (by simp)
  · rw [if_neg h1] at h
    exact absurd h (by simp)

theorem strategyB_type_options (ds dt row : String) (q : Question)
    (h : strategyB ds dt row = some q) :
    (q.type ≠ "Multiple Choice" → q.options = JsValue.null) ∧
    (q.type = "Multiple Choice" →
      isStrArr q.options = true ∨ ∃ s, jsonParse (sanitize s) = some q.options) := by
  unfold strategyB at h
  cases hd : descMatch row with
  | none => rw [hd] at h; exact absurd h (by simp)
  | some d =>
    cases ha : ansMatch row with
    | none => rw [hd, ha] at h; exact absurd h (by simp)
    | some a =>
      rw [hd, ha] at h
      have hq := (Option.some.injEq _ _).mp h
      subst hq
      constructor
      · intro ht
        simp [truthy, ht]
      · intro ht
        subst ht
        cases ho : optMatch row with
        | none => simp [truthy, isStrArr]
        | some o =>
          rcases decodeOptions_strArr_or_parsed (trimStr o) with hs | hs
          · by_cases htr : truthy (decodeOptions (trimStr o)) = true
            · left
              simpa [htr] using hs
            · left
              simp [htr, isStrArr]
          · by_cases htr : truthy (decodeOptions (trimStr o)) = true
            · right
              refine ⟨trimStr o, ?_⟩
              simpa [htr] using hs
            · left
              simp [htr, isStrArr]

theorem mem_parseRows (gen : Nat → String) (ds dt : String) :
    ∀ rows n q, q ∈ parseRows gen ds dt rows n →
      ∃ row q₀ m, (strategyA ds dt row = some q₀ ∨ strategyB ds dt row = some q₀) ∧
        q = { q₀ with id := gen m } := by
  intro rows
  induction rows with
  | nil =>
    intro n q h
    simp [parseRows] at h
  | cons row rest ih =>
    intro n q h
    simp only [parseRows] at h
    cases hA : strategyA ds dt row with
    | some q₀ =>
      rw [hA] at h
      rcases List.mem_cons.mp h with h1 | h2
      · exact ⟨row, q₀, n, Or.inl hA, h1⟩
      · exact ih (n + 1) q h2
    | none =>
      rw [hA] at h
      cases hB : strategyB ds dt row with
      | some q₀ =>
        rw [hB] at h
        rcases List.mem_cons.mp h with h1 | h2
        · exact ⟨row, q₀, n, Or.inr hB, h1⟩
        · exact ih (n + 1) q h2
      | none =>
        rw [hB] at h
        exact ih n q h

theorem parseRows_map_eraseId (gen₁ gen₂ : Nat → String) (ds dt : String) :
    ∀ rows n₁ n₂, (parseRows gen₁ ds dt rows n₁).map eraseId
      = (parseRows gen₂ ds dt rows n₂).map eraseId := by
  intro rows
  induction rows with
  | nil =>
    intro n₁ n₂
    rfl
  | cons row rest ih =>
    intro n₁ n₂
    simp only [parseRows]
    cases hA : strategyA ds dt row with
    | some q =>
      simp only [List.map_cons]
      exact congrArg₂ List.cons rfl (ih (n₁ + 1) (n₂ + 1))
    | none =>
      cases hB : strategyB ds dt row with
      | some q =>
        simp only [List.map_cons]
        exact congrArg₂ List.cons rfl (ih (n₁ + 1) (n₂ + 1))
      | none => exact ih n₁ n₂

/-! ### Claim theorems -/

/-- C1: for every row that splits on the field-delimiter token into at least
five parts, strategy A produces the record with description, options text,
answer, skill and type equal to parts 0..4, each trimmed of surrounding
whitespace (the options text, part 1 trimmed, is what the decoder receives,
and it is consulted exactly when the trimmed type field is the
multiple-choice literal). -/
theorem c1_strategyA_five_part_fields (row ds dt : String)
    (h5 : 5 ≤ (splitOnStr row "|->").length) :
    strategyA ds dt row = some
      { id := "",
        description := trimStr ((splitOnStr row "|->").getD 0 ""),
        options := if trimStr ((splitOnStr row "|->").getD 4 "") = "Multiple Choice"
          then decodeOptions (trimStr ((splitOnStr row "|->").getD 1 ""))
          else JsValue.null,
        answer := trimStr ((splitOnStr row "|->").getD 2 ""),
        skill := trimStr ((splitOnStr row "|->").getD 3 ""),
        type := trimStr ((splitOnStr row "|->").getD 4 "") } := by
  have hc : containsSub row "|->" = true :=
    (containsSub_iff_two_le_split row).mpr (by omega)
  have hlen : ((splitOnStr row "|->").map trimStr).length = (splitOnStr row "|->").length :=
    List.length_map _ _
  have h2 : 2 ≤ ((splitOnStr row "|->").map trimStr).length := by
    rw [hlen]
    omega
  have h5' : 5 ≤ ((splitOnStr row "|->").map trimStr).length := by
    rw [hlen]
    omega
  unfold strategyA
  rw [if_pos hc]
  simp only [if_pos h2, if_pos h5']
  rw [getD_map_trim _ 0 (by omega), getD_map_trim _ 1 (by omega),
    getD_map_trim _ 2 (by omega), getD_map_trim _ 3 (by omega),
    getD_map_trim _ 4 (by omega)]

/-- Witness for C1: a concrete five-part row, with the hypothesis and the
resulting record evaluated. -/
theorem c1_strategyA_five_part_fields_witness :
    5 ≤ (splitOnStr "D |-> [1] |-> A |-> Math |-> Essay" "|->").length ∧
    strategyA "S" "T" "D |-> [1] |-> A |-> Math |-> Essay"
      = some (Question.mk "" "D" JsValue.null "A" "Math" "Essay") :=
  ⟨by decide,
    (c1_strategyA_five_part_fields "D |-> [1] |-> A |-> Math |-> Essay" "S" "T"
      (by decide)).trans (by rfl)⟩

/-- C5: for every row that splits on the field-delimiter token into exactly
two, three or four parts, strategy A produces the record with description =
part 0 trimmed, answer = part 1 trimmed, skill and type the caller-supplied
defaults, and the options text given to the decoder is the empty string
(consulted exactly when the default type is the multiple-choice literal). -/
theorem c5_strategyA_short_row_defaults (row ds dt : String)
    (h2 : 2 ≤ (splitOnStr row "|->").length) (h4 : (splitOnStr row "|->").length ≤ 4) :
    strategyA ds dt row = some
      { id := "",
        description := trimStr ((splitOnStr row "|->").getD 0 ""),
        options := if dt = "Multiple Choice" then decodeOptions "" else JsValue.null,
        answer := trimStr ((splitOnStr row "|->").getD 1 ""),
        skill := ds,
        type := dt } := by
  have hc : containsSub row "|->" = true := (containsSub_iff_two_le_split row).mpr h2
  have hlen : ((splitOnStr row "|->").map trimStr).length = (splitOnStr row "|->").length :=
    List.length_map _ _
  have h2' : 2 ≤ ((splitOnStr row "|->").map trimStr).length := by
    rw [hlen]
    omega
  have h5' : ¬5 ≤ ((splitOnStr row "|->").map trimStr).length := by
    rw [hlen]
    omega
  unfold strategyA
  rw [if_pos hc]
  simp only [if_pos h2', if_neg h5']
  rw [getD_map_trim _ 0 (by omega), getD_map_trim _ 1 (by omega)]

/-- Witness for C5: a concrete two-part row, with the hypotheses and the
resulting record evaluated. -/
theorem c5_strategyA_short_row_defaults_witness :
    2 ≤ (splitOnStr "a|->b" "|->").length ∧ (splitOnStr "a|->b" "|->").length ≤ 4 ∧
    strategyA "Math" "Essay" "a|->b"
      = some (Question.mk "" "a" JsValue.null "b" "Math" "Essay") :=
  ⟨by decide, by decide,
    (c5_strategyA_short_row_defaults "a|->b" "Math" "Essay" (by decide) (by decide)).trans
      (by rfl)⟩

/-- C10: every row containing the field-delimiter token splits into at least
two parts, so strategy A always succeeds on it: the row yields exactly one
record in the loop, prepended before the remaining rows' records, and
strategy B is never consulted (the loop shape shows the emitted head comes
from strategy A alone). -/
theorem c10_field_delim_row_always_strategyA (row ds dt : String)
    (h : containsSub row "|->" = true) :
    ∃ q, strategyA ds dt row = some q ∧
      ∀ gen n rest, parseRows gen ds dt (row :: rest) n
        = { q with id := gen n } :: parseRows gen ds dt rest (n + 1) := by
  have h2 : 2 ≤ (splitOnStr row "|->").length := (containsSub_iff_two_le_split row).mp h
  have h2' : 2 ≤ ((splitOnStr row "|->").map trimStr).length := by
    rw [List.length_map]
    omega
  have hA : ∃ q, strategyA ds dt row = some q := by
    unfold strategyA
    rw [if_pos h]
    simp only [if_pos h2']
    exact ⟨_, rfl⟩
  obtain ⟨q, hq⟩ := hA
  refine ⟨q, hq, ?_⟩
  intro gen n rest
  simp only [parseRows, hq]

/-- Witness for C10 at a concrete delimiter-bearing row. -/
theorem c10_field_delim_row_always_strategyA_witness :
    containsSub "x|->y" "|->" = true ∧
    (∃ q, strategyA "S" "T" "x|->y" = some q ∧
      ∀ gen n rest, parseRows gen "S" "T" ("x|->y" :: rest) n
        = { q with id := gen n } :: parseRows gen "S" "T" rest (n + 1)) :=
  ⟨by decide, c10_field_delim_row_always_strategyA "x|->y" "S" "T" (by decide)⟩

/-- C4: when the primary row split yields at most one non-empty row and the
normalized text still contains the field-delimiter token and a newline, the
row splitter re-splits on newlines and keeps exactly the lines containing
the field-delimiter token; in particular a two-line input without the row
delimiter, each line carrying the field delimiter, yields those two lines
as rows in input order. -/
theorem c4_row_split_newline_fallback :
    (∀ t : String,
      ((splitOnStr t "<_>").filter (fun r => 0 < (trimStr r).length)).length ≤ 1 →
      containsSub t "|->" = true → containsSub t "\n" = true →
      splitRows t = (splitOnStr t "\n").filter (fun r => containsSub r "|->")) ∧
    splitRows "A |-> B\nC |-> D" = ["A |-> B", "C |-> D"] := by
  constructor
  · intro t h1 h2 h3
    simp only [splitRows]
    split
    · rfl
    · rename_i hfalse
      exact absurd (by simp [h1, h2, h3]) hfalse
  · rfl

/-- Witness for C4: a concrete input exercising the newline fallback, with
all three hypotheses evaluated. -/
theorem c4_row_split_newline_fallback_witness :
    ((splitOnStr "x|->y\nz|->w" "<_>").filter (fun r => 0 < (trimStr r).length)).length ≤ 1 ∧
    splitRows "x|->y\nz|->w"
      = (splitOnStr "x|->y\nz|->w" "\n").filter (fun r => containsSub r "|->") :=
  ⟨by decide,
    c4_row_split_newline_fallback.1 "x|->y\nz|->w" (by decide) (by decide) (by decide)⟩

/-- C8: two invocations of the parser on identical input — modelled as two
runs with arbitrary, possibly different identifier-generator streams —
produce record sequences of the same length that agree on every field
except the generated identifier. -/
theorem c8_parse_deterministic_modulo_ids (gen₁ gen₂ : Nat → String) (raw ds dt : String) :
    (parseDifyCSV gen₁ raw ds dt).length = (parseDifyCSV gen₂ raw ds dt).length ∧
    (parseDifyCSV gen₁ raw ds dt).map eraseId = (parseDifyCSV gen₂ raw ds dt).map eraseId := by
  have h := parseRows_map_eraseId gen₁ gen₂ ds dt (splitRows (normalizeRaw raw)) 0 0
  constructor
  · have hlen := congrArg List.length h
    simpa [List.length_map] using hlen
  · exact h

/-- C2 (amended): every emitted record has null options whenever its type is
not the multiple-choice literal; when its type is the multiple-choice
literal, its options are either a (possibly empty) sequence of strings or
the value of a successful primary JSON decode of some options text — which
may be a non-sequence value such as JSON null. -/
theorem c2_amended_options_by_type (gen : Nat → String) (raw ds dt : String) (q : Question)
    (h : q ∈ parseDifyCSV gen raw ds dt) :
    (q.type ≠ "Multiple Choice" → q.options = JsValue.null) ∧
    (q.type = "Multiple Choice" →
      isStrArr q.options = true ∨ ∃ s, jsonParse (sanitize s) = some q.options) := by
  obtain ⟨row, q₀, m, hstrat, rfl⟩ := mem_parseRows gen ds dt _ 0 q h
  rcases hstrat with hA | hB
  · exact strategyA_type_options ds dt row q₀ hA
  · exact strategyB_type_options ds dt row q₀ hB

/-- Witness for C2 (amended): a concrete parse whose single record has a
non-multiple-choice type and null options. -/
theorem c2_amended_options_by_type_witness :
    Question.mk "id" "a" JsValue.null "b" "Math" "Essay"
      ∈ parseDifyCSV (fun _ => "id") "a|->b" "Math" "Essay" ∧
    ((Question.mk "id" "a" JsValue.null "b" "Math" "Essay").type ≠ "Multiple Choice" →
      (Question.mk "id" "a" JsValue.null "b" "Math" "Essay").options = JsValue.null) := by
  have heq : parseDifyCSV (fun _ => "id") "a|->b" "Math" "Essay"
      = [Question.mk "id" "a" JsValue.null "b" "Math" "Essay"] := by rfl
  have hmem : Question.mk "id" "a" JsValue.null "b" "Math" "Essay"
      ∈ parseDifyCSV (fun _ => "id") "a|->b" "Math" "Essay" := by
    rw [heq]
    exact List.mem_singleton.mpr rfl
  exact ⟨hmem, (c2_amended_options_by_type (fun _ => "id") "a|->b" "Math" "Essay" _ hmem).1⟩

/-- C2 counterexample: a five-part row with options text "null" and type
"Multiple Choice" produces a record whose type is multiple choice but whose
options are JSON null — not a present sequence of strings — because the
primary decode of "null" succeeds with null. -/
theorem c2_counterexample_mc_null_options :
    (parseDifyCSV (fun _ => "id") "Q|->null|->A|->Math|->Multiple Choice" "Math" "Essay").any
      (fun q => q.type == "Multiple Choice" && !isStrArr q.options) = true ∧
    (parseDifyCSV (fun _ => "id") "Q|->null|->A|->Math|->Multiple Choice" "Math" "Essay").any
      (fun q => q.type == "Multiple Choice" && (match q.options with
        | JsValue.null => true
        | _ => false)) = true := by
  constructor
  · rfl
  · rfl

/-- C3 (amended): for every row handled by strategy B, a record is emitted
exactly when both the description pattern and the answer pattern match the
row (their captured spans may be empty after trimming); the emitted record
carries the trimmed captures as description and answer, and the
caller-supplied defaults as skill and type. -/
theorem c3_amended_strategyB_match_conditions (ds dt row : String) :
    (strategyB ds dt row).isSome = ((descMatch row).isSome && (ansMatch row).isSome) ∧
    (∀ q, strategyB ds dt row = some q →
      q.description = trimStr ((descMatch row).getD "") ∧
      q.answer = trimStr ((ansMatch row).getD "") ∧
      q.skill = ds ∧ q.type = dt) := by
  cases hd : descMatch row with
  | none =>
    constructor
    · simp [strategyB, hd]
    · intro q hq
      cases ha : ansMatch row <;> simp [strategyB, hd, ha] at hq
  | some d =>
    cases ha : ansMatch row with
    | none =>
      constructor
      · simp [strategyB, hd, ha]
      · intro q hq
        simp [strategyB, hd, ha] at hq
    | some a =>
      constructor
      · simp [strategyB, hd, ha]
      · intro q hq
        unfold strategyB at hq
        rw [hd, ha] at hq
        have hq' := (Option.some.injEq _ _).mp hq
        subst hq'
        exact ⟨rfl, rfl, rfl, rfl⟩

/-- Witness for C3 (amended): a concrete row where both patterns match, with
the emitted record's fields checked against the trimmed captures. -/
theorem c3_amended_strategyB_match_conditions_witness :
    strategyB "Math" "Essay" "Description: X Answer: Y"
      = some (Question.mk "" "X" JsValue.null "Y" "Math" "Essay") ∧
    (Question.mk "" "X" JsValue.null "Y" "Math" "Essay").description
      = trimStr ((descMatch "Description: X Answer: Y").getD "") ∧
    (Question.mk "" "X" JsValue.null "Y" "Math" "Essay").answer
      = trimStr ((ansMatch "Description: X Answer: Y").getD "") :=
  ⟨by rfl,
    ((c3_amended_strategyB_match_conditions "Math" "Essay" "Description: X Answer: Y").2
      _ (by rfl)).1,
    (((c3_amended_strategyB_match_conditions "Math" "Essay" "Description: X Answer: Y").2
      _ (by rfl)).2).1⟩

/-- C3 counterexample: the row "Description: Answer: B" has no field
delimiter, so it is handled by strategy B, whose description pattern
matches with an empty capture; a record with an empty description is
emitted, contradicting the claim that records emitted via strategy B have
non-empty descriptions. -/
theorem c3_counterexample_empty_description_emitted :
    containsSub "Description: Answer: B" "|->" = false ∧
    parseDifyCSV (fun _ => "u") "Description: Answer: B" "Math" "Essay"
      = [Question.mk "u" "" JsValue.null "B" "Math" "Essay"] := by
  constructor
  · rfl
  · rfl

/-- C6: whenever the primary structured-list decode (JSON parsing of the
quote-substituted text) fails, the option decoder falls back to stripping
every bracket and single-quote character, splitting on commas, trimming
each piece and keeping the non-empty pieces in order; in particular the
well-quoted list of A, B, C decodes to the sequence A, B, C via the primary
path, and the unquoted "[A, B, C]" decodes to the same sequence via the
fallback. -/
theorem c6_fallback_option_decode :
    (∀ s, jsonParse (sanitize s) = none →
      decodeOptions s = JsValue.arr
        ((((splitOnStr (stripBracketsQuotes s) ",").map trimStr).filter
          (fun o => 0 < o.length)).map JsValue.str)) ∧
    decodeOptions optsListLit
      = JsValue.arr [JsValue.str "A", JsValue.str "B", JsValue.str "C"] ∧
    decodeOptions "[A, B, C]"
      = JsValue.arr [JsValue.str "A", JsValue.str "B", JsValue.str "C"] := by
  refine ⟨?_, by rfl, by rfl⟩
  intro s h
  unfold decodeOptions
  rw [h]
  rfl

/-- Witness for C6: the malformed options text, with the primary-decode
failure hypothesis evaluated. -/
theorem c6_fallback_option_decode_witness :
    jsonParse (sanitize "[A, B, C]") = none ∧
    decodeOptions "[A, B, C]" = JsValue.arr
      ((((splitOnStr (stripBracketsQuotes "[A, B, C]") ",").map trimStr).filter
        (fun o => 0 < o.length)).map JsValue.str) :=
  ⟨by rfl, c6_fallback_option_decode.1 "[A, B, C]" (by rfl)⟩

/-- C7 (amended): strategy B extracts the description as the text following
a label "Description:" (case-insensitive) or an enumerator immediately
followed by a colon ("1.:" through "5.:"), up to the next "Options:" or
"Answer:" label or the end of the row; a row of the form
"1.: desc Answer: ans" or "Description: desc Answer: ans" yields a record
with that description and answer, while a bare enumerator without the
colon ("1. desc Answer: ans") does not match the description pattern. -/
theorem c7_amended_labels_require_colon :
    descMatch "1.: What is X Answer: 4" = some "What is X " ∧
    descMatch "1. What is X Answer: 4" = none ∧
    descMatch "description: y answer: z" = some "y " ∧
    parseDifyCSV (fun _ => "u") "1.: What is X Answer: 4" "Math" "Essay"
      = [Question.mk "u" "What is X" JsValue.null "4" "Math" "Essay"] ∧
    parseDifyCSV (fun _ => "u") "Description: Hello Answer: World" "Math" "Essay"
      = [Question.mk "u" "Hello" JsValue.null "World" "Math" "Essay"] := by
  refine ⟨?_, ?_, ?_, ?_, ?_⟩
  · rfl
  · rfl
  · rfl
  · rfl
  · rfl

/-- C7 counterexample: the row "1. What is 2+2 Answer: 4" — a leading
enumerator without a following colon and a non-empty answer — matches no
description label (the source regex puts the colon after the enumerator
alternatives), so the parser emits no record for it, contrary to the
claim's example. -/
theorem c7_counterexample_plain_enumerator_no_record :
    descMatch "1. What is 2+2 Answer: 4" = none ∧
    parseDifyCSV (fun _ => "u") "1. What is 2+2 Answer: 4" "Math" "Essay" = [] := by
  constructor
  · rfl
  · rfl

/-- C9: the handler returns the fixed configuration-error payload with
status 500 when the upstream host or API key is absent, and the
missing-fields payload with status 400 when the configuration is usable
but a required request field is absent; both results are early error
responses, so no upstream call (the only path that parses) is reached. -/
theorem c9_early_error_returns (cfg : ApiConfig) (body : Except String ReqBody) (b : ReqBody) :
    ((cfg.host = none ∨ cfg.apiKey = none) →
      handlePOST cfg body = PostResult.errorResp "Dify configuration is missing" 500) ∧
    (jsFalsyStr cfg.host = false → jsFalsyStr cfg.apiKey = false →
      (b.range = none ∨ b.skill = none ∨ b.type = none) →
      handlePOST cfg (Except.ok b) = PostResult.errorResp "Missing required fields" 400) := by
  constructor
  · intro h
    unfold handlePOST
    have hc : (jsFalsyStr cfg.host || jsFalsyStr cfg.apiKey) = true := by
      rcases h with h | h <;> simp [jsFalsyStr, h]
    rw [if_pos hc]
  · intro h1 h2 h3
    unfold handlePOST
    have hc : ¬((jsFalsyStr cfg.host || jsFalsyStr cfg.apiKey) = true) := by
      simp [h1, h2]
    rw [if_neg hc]
    have hf : (jsFalsyStr b.range || jsFalsyStr b.skill || jsFalsyStr b.type) = true := by
      rcases h3 with h | h | h <;> simp [jsFalsyStr, h]
    dsimp only
    rw [if_pos hf]

/-- Witness for C9: a missing host with a complete body yields the fixed
500 payload; a complete configuration with a missing range yields the 400
payload. -/
theorem c9_early_error_returns_witness :
    handlePOST (ApiConfig.mk none (some "k"))
        (Except.ok (ReqBody.mk (some "r") (some "s") (some "t")))
      = PostResult.errorResp "Dify configuration is missing" 500 ∧
    handlePOST (ApiConfig.mk (some "h") (some "k"))
        (Except.ok (ReqBody.mk none (some "s") (some "t")))
      = PostResult.errorResp "Missing required fields" 400 :=
  ⟨(c9_early_error_returns (ApiConfig.mk none (some "k"))
      (Except.ok (ReqBody.mk (some "r") (some "s") (some "t")))
      (ReqBody.mk (some "r") (some "s") (some "t"))).1 (Or.inl rfl),
   (c9_early_error_returns (ApiConfig.mk (some "h") (some "k"))
      (Except.ok (ReqBody.mk none (some "s") (some "t")))
      (ReqBody.mk none (some "s") (some "t"))).2 (by rfl) (by rfl) (Or.inl rfl)⟩
